import Mathlib

/-!
Shallow embedding of the lot-size resolution subsystem and the request
handlers of `src/main.py` (a FastAPI relay around the Breeze broker SDK).

Pure computations (string normalization, CSV column detection, row
processing, filename discovery, cache freshness logic, handler control
flow) are translated directly from the source.  Network I/O (HTTP GET,
cookie priming), gzip decompression and the `csv.DictReader` framing are
the external-collaborator boundary: they are modelled as explicit inputs
(`Except`-valued oracles, or a `ContractFile` of fieldnames and rows,
which is exactly the shape `csv.DictReader` hands to the row loop).
Python strings are modelled as Lean strings with character-level
operations over ASCII (the source data is ASCII); Python `float` values
arising from numeric strings are modelled exactly as rationals, and
`time.time()` timestamps as rationals.
-/

/-! ## Python string primitives -/

/-- Python `str.strip` on a character list: drop leading and trailing
whitespace. -/
def pyStripList (l : List Char) : List Char :=
  ((l.dropWhile Char.isWhitespace).reverse.dropWhile Char.isWhitespace).reverse

/-- Python `s.strip()`. -/
def pyStrip (s : String) : String := String.mk (pyStripList s.data)

/-- Python `s.lower()` (ASCII). -/
def pyLower (s : String) : String := String.mk (s.data.map Char.toLower)

/-- Python `s.upper()` (ASCII). -/
def pyUpper (s : String) : String := String.mk (s.data.map Char.toUpper)

/-- Python `s.capitalize()` (ASCII): first character upper-cased, the rest
lower-cased. -/
def pyCapitalize (s : String) : String :=
  match s.data with
  | [] => ""
  | c :: cs => String.mk (c.toUpper :: cs.map Char.toLower)

/-- Whether the character list `hay` starts with `needle`. -/
def listStarts : List Char → List Char → Bool
  | _, [] => true
  | [], _ :: _ => false
  | c :: cs, d :: ds => c == d && listStarts cs ds

/-- Whether `needle` occurs as a contiguous sublist of `hay`. -/
def listHasSub (hay needle : List Char) : Bool :=
  match hay with
  | [] => needle.isEmpty
  | _ :: t => listStarts hay needle || listHasSub t needle

/-- Python substring membership `needle in hay`. -/
def strHasSub (hay needle : String) : Bool := listHasSub hay.data needle.data

/-- Python `s.replace(",", "")`: remove every comma. -/
def stripCommas (s : String) : String :=
  String.mk (s.data.filter (fun c => c != ','))

/-- `_normalize_symbol` from the source: `(sym or "").strip().upper()`. -/
def normalize_symbol (s : String) : String := pyUpper (pyStrip s)

/-! ## Python numeric-string parsing

The source converts lot fields with `int(float(raw))` inside
`try/except` and strike/spot fields with `float(raw)`.  We model the
grammar of Python `float()` on already-stripped strings (optional sign,
digits with an optional decimal point, optional exponent) exactly over
the rationals; `int()` truncates toward zero.  The `inf`/`nan` words are
treated as parse failures, matching the composite behaviour in the
source (both raise inside `int(...)`/`float(...)` use sites and are
swallowed by the enclosing `except`).  IEEE-754 rounding of the
intermediate double is not modelled; every value in scope is a small
decimal for which the double is exact. -/

/-- Numeric value of a list of decimal digit characters. -/
def digitsToNat (ds : List Char) : Nat :=
  ds.foldl (fun a c => a * 10 + (c.toNat - 48)) 0

/-- Result of parsing a Python float literal: sign, all mantissa digits,
number of fraction digits, exponent. -/
structure PyFloatLit where
  neg : Bool
  mantissa : Nat
  fracDigits : Nat
  exp : Int
  deriving DecidableEq

/-- Consume an optional leading sign. -/
def parseSign : List Char → Bool × List Char
  | '-' :: cs => (true, cs)
  | '+' :: cs => (false, cs)
  | cs => (false, cs)

/-- Parse the optional exponent part and require end of input. -/
def parseExpPart (neg : Bool) (mant : Nat) (fd : Nat) : List Char → Option PyFloatLit
  | [] => some ⟨neg, mant, fd, 0⟩
  | c :: cs =>
    if c == 'e' || c == 'E' then
      let (eneg, cs2) := parseSign cs
      let ed := cs2.takeWhile Char.isDigit
      let cs3 := cs2.dropWhile Char.isDigit
      if ed.isEmpty || !cs3.isEmpty then none
      else some ⟨neg, mant, fd, if eneg then -(digitsToNat ed : Int) else (digitsToNat ed : Int)⟩
    else none

/-- Parse a string in the grammar accepted by Python `float()` (for
plain decimal input). -/
def parsePyFloat (s : String) : Option PyFloatLit :=
  let cs := s.data
  let (neg, cs1) := parseSign cs
  let ip := cs1.takeWhile Char.isDigit
  let cs2 := cs1.dropWhile Char.isDigit
  match cs2 with
  | '.' :: cs3 =>
    let fp := cs3.takeWhile Char.isDigit
    let cs4 := cs3.dropWhile Char.isDigit
    if ip.isEmpty && fp.isEmpty then none
    else parseExpPart neg (digitsToNat (ip ++ fp)) fp.length cs4
  | _ =>
    if ip.isEmpty then none
    else parseExpPart neg (digitsToNat ip) 0 cs2

/-- Truncation toward zero of the parsed value, as performed by Python
`int(float(s))`. -/
def PyFloatLit.truncInt (p : PyFloatLit) : Int :=
  let e : Int := p.exp - (p.fracDigits : Int)
  let mag : Nat :=
    if 0 ≤ e then p.mantissa * 10 ^ e.toNat else p.mantissa / 10 ^ (-e).toNat
  if p.neg then -(mag : Int) else (mag : Int)

/-- Exact rational value of the parsed float literal. -/
def PyFloatLit.toRat (p : PyFloatLit) : ℚ :=
  let m : ℚ := (p.mantissa : ℚ) / (10 : ℚ) ^ p.fracDigits
  let v : ℚ := if 0 ≤ p.exp then m * (10 : ℚ) ^ p.exp.toNat else m / (10 : ℚ) ^ (-p.exp).toNat
  if p.neg then -v else v

/-- Python `int(float(s))`, or `none` when the conversion raises. -/
def pyIntOfFloat (s : String) : Option Int := (parsePyFloat s).map PyFloatLit.truncInt

/-- Python `float(s)` as an exact rational, or `none` when it raises. -/
def pyFloatRat (s : String) : Option ℚ := (parsePyFloat s).map PyFloatLit.toRat

/-! ## Contract CSV parsing (`_extract_lot_size_map_from_contract_csv`)

The gzip and text-decoding steps of the source produce, via
`csv.DictReader`, a list of header names and a list of rows keyed by
header.  `ContractFile` is that shape; each row is an association list
from column name to cell string (`row.get(col, "")` is lookup with
default `""`). -/

/-- The output of `csv.DictReader`: raw fieldnames plus the data rows. -/
structure ContractFile where
  fieldnames : List String
  rows : List (List (String × String))
  deriving DecidableEq

/-- Python `row.get(col, "")` on a row dictionary. -/
def rowGet (row : List (String × String)) (col : String) : String :=
  (row.lookup col).getD ""

/-- The header list computed by the source:
`[h.strip() for h in (reader.fieldnames or []) if h]`. -/
def csvHeaders (fieldnames : List String) : List String :=
  (fieldnames.filter (fun h => h != "")).map pyStrip

/-- Lookup in the Python dict `{h.lower(): h for h in headers}`: the
comprehension lets a later header overwrite an earlier one with the same
lower-casing, so the last matching header wins. -/
def lowerDictGet (headers : List String) (key : String) : Option String :=
  headers.reverse.find? (fun h => pyLower h == key)

/-- First candidate name present in the lower-cased header dict, and the
header it resolves to. -/
def firstCandidate (headers : List String) : List String → Option String
  | [] => none
  | c :: cs =>
    match lowerDictGet headers c with
    | some h => some h
    | none => firstCandidate headers cs

/-- Exact symbol-column candidates from the source. -/
def symbolCandidates : List String :=
  ["symbol", "underlying", "underlying_symbol", "tradingsymbol", "security"]

/-- Exact lot-size-column candidates from the source. -/
def lotCandidates : List String :=
  ["market lot", "market_lot", "lot_size", "lotsize", "qty freeze lot", "quantity freeze"]

/-- Exact instrument-type-column candidates from the source. -/
def instrCandidates : List String :=
  ["instrument", "instrumenttype", "inst type", "series"]

/-- Symbol column resolution: exact candidates, then the fuzzy fallback
(any header whose lower-casing contains "symbol" or "underly").  A
resolved header is never the empty string (candidates are non-empty and
the fuzzy predicates require non-empty content), so the Python falsiness
test `not symbol_col` coincides with `none` here. -/
def resolveSymbolCol (headers : List String) : Option String :=
  match firstCandidate headers symbolCandidates with
  | some h => some h
  | none =>
    headers.find? (fun h => strHasSub (pyLower h) "symbol" || strHasSub (pyLower h) "underly")

/-- Lot column resolution: exact candidates, then the fuzzy fallback
(lower-cased header contains "lot" and also "size" or "market"). -/
def resolveLotCol (headers : List String) : Option String :=
  match firstCandidate headers lotCandidates with
  | some h => some h
  | none =>
    headers.find? (fun h =>
      strHasSub (pyLower h) "lot" && (strHasSub (pyLower h) "size" || strHasSub (pyLower h) "market"))

/-- Instrument column resolution: exact candidates only. -/
def resolveInstrCol (headers : List String) : Option String :=
  firstCandidate headers instrCandidates

/-- Normalized symbol of a row under the resolved symbol column. -/
def rowSym (sc : String) (row : List (String × String)) : String :=
  normalize_symbol (rowGet row sc)

/-- Instrument filter of the row loop: with no instrument column every
row passes; otherwise the upper-cased value must be empty or contain
"OPT" or "FUT". -/
def rowInstOk (ic : Option String) (row : List (String × String)) : Bool :=
  match ic with
  | none => true
  | some c =>
    let inst := pyUpper (rowGet row c)
    inst == "" || strHasSub inst "OPT" || strHasSub inst "FUT"

/-- Lot value of a row: strip, remove thousands separators, then
`int(float(raw_lot))`; `none` when the field is empty or the conversion
raises (the row is then skipped). -/
def rowLot (lc : String) (row : List (String × String)) : Option Int :=
  let rawLot := stripCommas (pyStrip (rowGet row lc))
  if rawLot == "" then none else pyIntOfFloat rawLot

/-- The row loop of `_extract_lot_size_map_from_contract_csv`: skip rows
with empty symbol, rows failing the instrument filter, and rows with an
empty or unparsable lot field; record the first valid lot per symbol. -/
def processRows (sc lc : String) (ic : Option String) :
    List (List (String × String)) → List (String × Int) → List (String × Int)
  | [], acc => acc
  | row :: rest, acc =>
    let sym := rowSym sc row
    if sym == "" then processRows sc lc ic rest acc
    else if !rowInstOk ic row then processRows sc lc ic rest acc
    else
      match rowLot lc row with
      | none => processRows sc lc ic rest acc
      | some lot =>
        if (acc.lookup sym).isSome then processRows sc lc ic rest acc
        else processRows sc lc ic rest (acc ++ [(sym, lot)])

/-- Python `repr` of a list of (quote-free ASCII) strings, as interpolated
into the column-detection error message. -/
def pyStrListRepr (l : List String) : String :=
  "[" ++ String.intercalate ", " (l.map (fun h => "\x27" ++ h ++ "\x27")) ++ "]"

/-- The column-detection error message, naming the offending headers. -/
def colDetectError (headers : List String) : String :=
  "Could not detect symbol/lot columns in NSE contract file. Headers: " ++ pyStrListRepr headers

/-- `_extract_lot_size_map_from_contract_csv` after gzip/decode/DictReader:
fail on zero rows, resolve the columns, process the rows, fail when the
resulting table is empty. -/
def extract_lot_size_map_from_contract_csv (file : ContractFile) :
    Except String (List (String × Int)) :=
  match file.rows with
  | [] => Except.error "NSE contract file parsed but contains no rows"
  | _ :: _ =>
    let headers := csvHeaders file.fieldnames
    match resolveSymbolCol headers, resolveLotCol headers with
    | some sc, some lc =>
      let m := processRows sc lc (resolveInstrCol headers) file.rows []
      if m.isEmpty then Except.error "Parsed NSE contract file but no lot sizes found"
      else Except.ok m
    | _, _ => Except.error (colDetectError headers)

/-! ## Discovery (`_get_latest_nse_contract_url`)

The listing-page HTML body is an input string; the regex
`NSE_FO_contract_\d{8}\.csv\.gz` is matched with `re.findall` semantics
(left-to-right, resuming after each match; the pattern cannot overlap
itself because the literal prefix recurs nowhere inside a match). -/

/-- The literal filename prefix of the pattern. -/
def contractNameStart : List Char := "NSE_FO_contract_".data

/-- Try to match the filename pattern at the head of `cs`, returning the
31-character match. -/
def matchContractAt (cs : List Char) : Option (List Char) :=
  if listStarts cs contractNameStart then
    let rest := cs.drop 16
    if (rest.take 8).length == 8 && (rest.take 8).all Char.isDigit
        && listStarts (rest.drop 8) ".csv.gz".data then
      some (cs.take 31)
    else none
  else none

/-- Left-to-right scan collecting non-overlapping matches; the fuel is at
least the remaining length, and every step consumes at least one
character, so no match is ever missed. -/
def findContractNames : List Char → Nat → List String
  | _, 0 => []
  | [], _ + 1 => []
  | c :: cs, n + 1 =>
    match matchContractAt (c :: cs) with
    | some m => String.mk m :: findContractNames ((c :: cs).drop 31) n
    | none => findContractNames cs n

/-- `re.findall(r"NSE_FO_contract_\d{8}\.csv\.gz", html)`. -/
def findall_contract (html : String) : List String :=
  findContractNames html.data html.data.length

/-- Lexicographic code-point comparison of character lists, the order
Python `sorted` uses on strings. -/
def listLtChars : List Char → List Char → Bool
  | [], [] => false
  | [], _ :: _ => true
  | _ :: _, [] => false
  | c :: cs, d :: ds =>
    if c.toNat < d.toNat then true
    else if d.toNat < c.toNat then false
    else listLtChars cs ds

/-- Python string comparison `a < b`. -/
def pyStrLt (a b : String) : Bool := listLtChars a.data b.data

/-- `sorted(matches)[-1]`: the last element of the ascending sort is the
lexicographically greatest element, computed as a fold. -/
def listMaxStr (x : String) (l : List String) : String :=
  l.foldl (fun a b => if pyStrLt a b then b else a) x

/-- The fixed archive host path joined with the selected filename. -/
def nseArchiveBase : String := "https://nsearchives.nseindia.com/content/fo/"

/-- `_get_latest_nse_contract_url`: return the stripped override env var
when non-empty, otherwise scan the listing page body and pick the
lexicographically greatest matching filename.  The cookie-priming GET in
the source has no effect on the result and is not modelled. -/
def get_latest_nse_contract_url (envUrl : String) (html : String) : Except String String :=
  let forced := pyStrip envUrl
  if forced != "" then Except.ok forced
  else
    match findall_contract html with
    | [] => Except.error "Could not find NSE_FO_contract file name on NSE reports page"
    | m :: ms => Except.ok (nseArchiveBase ++ listMaxStr m ms)

/-! ## Lot-size cache (`_nse_lot_cache`, `_load_nse_lot_sizes`,
`get_nse_lot_size`)

`time.time()` returns seconds as a real number; the claims about the
cache only compare instants against the integer window `21600`, so
instants are modelled as integers (the guard is the same order
comparison).  Discovery and the HTTP download are
oracles: `d` is the outcome of `_get_latest_nse_contract_url()` and `f`
maps a URL to the outcome of the download-decompress-DictReader stages
(an HTTP or gzip failure is `Except.error`); the parse stage is the real
`extract_lot_size_map_from_contract_csv`.  Each call returns the Python
return value or raised exception, the cache state after the call, and a
trace counting how many discovery / fetch / parse stages ran. -/

/-- The module-level `_nse_lot_cache` dict. -/
structure LotCache where
  data : Option (List (String × Int))
  loaded_at : Int
  source_url : Option String
  deriving DecidableEq

/-- Counts of pipeline stages executed during one call. -/
structure Trace where
  discoveries : Nat
  fetches : Nat
  parses : Nat
  deriving DecidableEq

/-- `ttl_seconds = 6 * 60 * 60`. -/
def ttlSeconds : Int := 6 * 60 * 60

/-- The freshness guard of `_load_nse_lot_sizes`:
`data is not None and now - loaded_at < ttl_seconds`. -/
def cacheFresh (now : Int) (st : LotCache) : Bool :=
  match st.data with
  | some _ => decide (now - st.loaded_at < ttlSeconds)
  | none => false

/-- The refresh path of `_load_nse_lot_sizes`: discovery, then fetch,
then parse; the three cache fields are assigned only after all stages
succeed, so a failure at any stage leaves the cache untouched. -/
def refreshNse (now : Int) (st : LotCache) (d : Except String String)
    (f : String → Except String ContractFile) :
    Except String (List (String × Int)) × LotCache × Trace :=
  match d with
  | Except.error e => (Except.error e, st, ⟨1, 0, 0⟩)
  | Except.ok url =>
    match f url with
    | Except.error e => (Except.error e, st, ⟨1, 1, 0⟩)
    | Except.ok file =>
      match extract_lot_size_map_from_contract_csv file with
      | Except.error e => (Except.error e, st, ⟨1, 1, 1⟩)
      | Except.ok m => (Except.ok m, ⟨some m, now, some url⟩, ⟨1, 1, 1⟩)

/-- `_load_nse_lot_sizes(force_refresh)`: serve the cached table when it
exists, is younger than the window and no forced refresh is requested;
otherwise run the refresh pipeline. -/
def load_nse_lot_sizes (force : Bool) (now : Int) (st : LotCache)
    (d : Except String String) (f : String → Except String ContractFile) :
    Except String (List (String × Int)) × LotCache × Trace :=
  match st.data with
  | some m =>
    if force == false && decide (now - st.loaded_at < ttlSeconds) then
      (Except.ok m, st, ⟨0, 0, 0⟩)
    else refreshNse now st d f
  | none => refreshNse now st d f

/-- `get_nse_lot_size(symbol)`: normalize, return `None` immediately on
an empty result, otherwise load (never forced) and look the symbol up in
the table. -/
def get_nse_lot_size (symbol : String) (now : Int) (st : LotCache)
    (d : Except String String) (f : String → Except String ContractFile) :
    Except String (Option Int) × LotCache × Trace :=
  let sym := normalize_symbol symbol
  if sym == "" then (Except.ok none, st, ⟨0, 0, 0⟩)
  else
    match load_nse_lot_sizes false now st d f with
    | (Except.error e, st2, tr) => (Except.error e, st2, tr)
    | (Except.ok m, st2, tr) => (Except.ok (m.lookup sym), st2, tr)

/-! ## Concurrent lookups

The source guards the shared `_nse_lot_cache` with no lock; FastAPI runs
the synchronous handlers on a thread pool, so several lookups can
evaluate the freshness guard before any of them writes the cache.  A
lookup is modelled as two atomic phases: evaluating the freshness guard,
then (when the guard saw a stale cache) running the whole refresh
pipeline and writing the cache.  This is coarser than the source (the
source's three field assignments are separate statements), which only
makes duplicate fetches rarer than in reality, so a duplicate-fetch
schedule in this model is also possible in the source. -/

/-- Progress of one lookup thread. -/
inductive TPhase
  | start
  | willRefresh
  | done
  deriving DecidableEq

/-- Shared cache plus per-thread progress and the total number of fetch
stages executed. -/
structure ConcState where
  cache : LotCache
  phases : List TPhase
  fetches : Nat
  deriving DecidableEq

/-- Run one atomic phase of thread `i`. -/
def concStep (now : Int) (d : Except String String)
    (f : String → Except String ContractFile) (st : ConcState) (i : Nat) : ConcState :=
  match st.phases[i]? with
  | some TPhase.start =>
    if cacheFresh now st.cache then { st with phases := st.phases.set i TPhase.done }
    else { st with phases := st.phases.set i TPhase.willRefresh }
  | some TPhase.willRefresh =>
    let r := refreshNse now st.cache d f
    { cache := r.2.1, phases := st.phases.set i TPhase.done,
      fetches := st.fetches + r.2.2.fetches }
  | _ => st

/-- Run a schedule (a list of thread ids, each entry one atomic phase). -/
def concRun (now : Int) (d : Except String String)
    (f : String → Except String ContractFile) (sched : List Nat) (st : ConcState) : ConcState :=
  sched.foldl (concStep now d f) st

/-! ## Quote handler (`/quote`), lot-size enrichment part -/

/-- The part of the `/quote` response relevant to enrichment: the
empty-result error payload, or a success payload with `meta.lot_size`. -/
inductive QuoteResult
  | err
  | ok (lot_size : Option Int)
  deriving DecidableEq

/-- The `/quote` handler after the broker call returned `rows`: an empty
list is an error response; otherwise the response is built and, only for
exchange code upper-casing to "NFO", `get_nse_lot_size` is attempted
with any raised exception swallowed into a `None` lot size. -/
def quote_handler (exchange_code stock_code : String)
    (rows : List (List (String × String))) (now : Int) (st : LotCache)
    (d : Except String String) (f : String → Except String ContractFile) :
    QuoteResult × LotCache :=
  match rows with
  | [] => (QuoteResult.err, st)
  | _ :: _ =>
    if pyUpper exchange_code == "NFO" then
      match get_nse_lot_size stock_code now st d f with
      | (Except.ok v, st2, _) => (QuoteResult.ok v, st2)
      | (Except.error _, st2, _) => (QuoteResult.ok none, st2)
    else (QuoteResult.ok none, st)

/-! ## Option-strikes handler (`/option_strikes`)

The broker collaborator is an oracle `f` from the attempted `right`
value to its response; a response is its `Success` row list (`None`
coerced to `[]` by `resp.get("Success") or []`) plus an opaque tag
standing for the rest of the payload (so that the error branch can carry
the exact last response). -/

/-- One option-chain row: the two fields the handler reads. -/
structure OptionRow where
  strike_price : Option String
  spot_price : Option String
  deriving DecidableEq

/-- A collaborator response: its `Success` rows and an opaque payload tag. -/
structure BreezeResp where
  success : List OptionRow
  tag : Nat
  deriving DecidableEq

/-- The strike strings admitted by the comprehension filter:
`strike_price` present and non-empty after strip. -/
def strikeFilter (rows : List OptionRow) : List String :=
  rows.filterMap (fun r =>
    match r.strike_price with
    | some s => if pyStrip s == "" then none else some s
    | none => none)

/-- Parse every admitted strike string; `none` models the unhandled
`ValueError` that `float(...)` would raise inside the comprehension. -/
def parseStrikeList : List String → Option (List ℚ)
  | [] => some []
  | s :: rest =>
    match pyFloatRat s, parseStrikeList rest with
    | some q, some qs => some (q :: qs)
    | _, _ => none

/-- Spot-price extraction: first row whose `spot_price` is present,
non-empty after strip, and parses; parse failures are passed over. -/
def spotOf (rows : List OptionRow) : Option ℚ :=
  rows.findSome? (fun r =>
    match r.spot_price with
    | some s => if pyStrip s == "" then none else pyFloatRat s
    | none => none)

/-- `sorted(set(...))`: deduplicate, then sort ascending. -/
def sortStrikes (l : List ℚ) : List ℚ := List.insertionSort (· ≤ ·) l.dedup

/-- The handler verdict: the 400 on an invalid `right`, a success
response (which carries no attempted-rights field), or the error
response carrying the last response and every attempted `right` value. -/
inductive StrikesResult
  | badRight
  | ok (right_used : String) (spot : Option ℚ) (count : Nat) (strikes : List ℚ)
  | err (last : Option BreezeResp) (attempted : List String)
  deriving DecidableEq

/-- The attempt loop of `option_strikes`: call the collaborator for each
`right` variant in order, recording it as attempted and keeping the last
response; return the success response for the first variant with
non-empty rows, or the error response when every variant came back
empty.  `none` models an unhandled exception from strike parsing. -/
def tryRightValues (f : String → BreezeResp) :
    List String → Option BreezeResp → List String → Option StrikesResult
  | [], last, attempted => some (StrikesResult.err last attempted)
  | rv :: rest, _, attempted =>
    let resp := f rv
    let attempted2 := attempted ++ [rv]
    match resp.success with
    | [] => tryRightValues f rest (some resp) attempted2
    | _ :: _ =>
      match parseStrikeList (strikeFilter resp.success) with
      | none => none
      | some qs =>
        let strikes := sortStrikes qs
        some (StrikesResult.ok rv (spotOf resp.success) strikes.length strikes)

/-- `option_strikes`: validate `right` (400 unless "call"/"put" after
strip and lower), then attempt the lowercase and capitalized variants in
order. -/
def option_strikes (f : String → BreezeResp) (right : String) : Option StrikesResult :=
  let right_in := pyLower (pyStrip right)
  if right_in != "call" && right_in != "put" then some StrikesResult.badRight
  else tryRightValues f [right_in, pyCapitalize right_in] none []

/-! ## Auxiliary definitions and concrete fixtures -/

/-- Left-biased choice, the precedence a Python dict gives an existing
key over a later insertion attempt. -/
def optOr {α : Type} (a b : Option α) : Option α :=
  match a with
  | some x => some x
  | none => b

/-- Specification-side definition, following the claim wording: the lot
size of the first valid occurrence of symbol `s` in file order, where a
row is valid when its normalized symbol is `s` and non-empty, the
instrument filter passes, and its lot field is non-empty and numeric. -/
def specFirstValidLot (sc lc : String) (ic : Option String)
    (rows : List (List (String × String))) (s : String) : Option Int :=
  rows.findSome? (fun row =>
    if rowSym sc row == s && rowSym sc row != "" && rowInstOk ic row then rowLot lc row
    else none)

/-- A contract file with a duplicated symbol, the example of the spec. -/
def dupSymbolFile : ContractFile :=
  ⟨["SYMBOL", "LOT_SIZE"],
   [[("SYMBOL", "TCS"), ("LOT_SIZE", "175")], [("SYMBOL", "TCS"), ("LOT_SIZE", "350")]]⟩

/-- A contract file whose headers match no symbol or lot heuristic. -/
def badHeaderFile : ContractFile := ⟨["FOO", "BAR"], [[("FOO", "x")]]⟩

/-- A contract file whose single row carries a lot field of "0". -/
def zeroLotFile : ContractFile :=
  ⟨["SYMBOL", "LOT_SIZE"], [[("SYMBOL", "X"), ("LOT_SIZE", "0")]]⟩

/-- A well-formed one-row contract file served by the fetch oracle in the
concurrency runs. -/
def dupFetchFile : ContractFile :=
  ⟨["SYMBOL", "LOT_SIZE"], [[("SYMBOL", "TCS"), ("LOT_SIZE", "175")]]⟩

/-- A listing page body carrying the three dated filenames of the
discovery example. -/
def listingPageSample : String :=
  "x NSE_FO_contract_01012026.csv.gz y NSE_FO_contract_15022026.csv.gz z NSE_FO_contract_05012026.csv.gz"

/-- A collaborator oracle returning rows only for the capitalized right
variant, with strike prices 100.5 (twice) and 50 and a spot of 99. -/
def exBreeze : String → BreezeResp := fun rv =>
  if rv == "Call" then
    ⟨[⟨some "100.5", some "99"⟩, ⟨some "100.5", none⟩, ⟨some "50", some ""⟩], 1⟩
  else ⟨[], 0⟩

/-! ## Theorems -/

@[simp]
theorem optOr_some {α : Type} (x : α) (b : Option α) : optOr (some x) b = some x := rfl

@[simp]
theorem optOr_none {α : Type} (b : Option α) : optOr none b = b := rfl

theorem lookup_append_opt {β : Type} (l1 l2 : List (String × β)) (s : String) :
    (l1 ++ l2).lookup s = optOr (l1.lookup s) (l2.lookup s) := by
  induction l1 with
  | nil => simp
  | cons p l ih =>
    obtain ⟨k, v⟩ := p
    simp only [List.cons_append, List.lookup]
    cases h : s == k <;> simp [h, ih]

theorem findSome?_eq_none_of {α β : Type} (l : List α) (f : α → Option β)
    (h : ∀ a, f a = none) : l.findSome? f = none := by
  induction l with
  | nil => rfl
  | cons a t ih => simp [List.findSome?_cons, h, ih]

theorem specFirstValidLot_cons (sc lc : String) (ic : Option String)
    (row : List (String × String)) (rest : List (List (String × String))) (s : String) :
    specFirstValidLot sc lc ic (row :: rest) s =
      optOr (if rowSym sc row == s && rowSym sc row != "" && rowInstOk ic row
             then rowLot lc row else none)
        (specFirstValidLot sc lc ic rest s) := by
  simp only [specFirstValidLot, List.findSome?_cons]
  cases hh : (if rowSym sc row == s && rowSym sc row != "" && rowInstOk ic row
      then rowLot lc row else none) <;> simp [hh]

/-- The row loop computes, for every symbol, the lot of its first valid
occurrence (entries already accumulated take precedence). -/
theorem processRows_lookup (sc lc : String) (ic : Option String)
    (rows : List (List (String × String))) (acc : List (String × Int)) (s : String) :
    (processRows sc lc ic rows acc).lookup s =
      optOr (acc.lookup s) (specFirstValidLot sc lc ic rows s) := by
  induction rows generalizing acc with
  | nil =>
    simp only [processRows, specFirstValidLot, List.findSome?_nil]
    cases acc.lookup s <;> rfl
  | cons row rest ih =>
    by_cases hsym : rowSym sc row = ""
    · have hskip : processRows sc lc ic (row :: rest) acc = processRows sc lc ic rest acc := by
        simp [processRows, hsym]
      have hrow : (if rowSym sc row == s && rowSym sc row != "" && rowInstOk ic row
          then rowLot lc row else none) = none := by simp [hsym]
      rw [hskip, ih, specFirstValidLot_cons, hrow, optOr_none]
    · by_cases hinst : rowInstOk ic row
      · cases hlot : rowLot lc row with
        | none =>
          have hskip : processRows sc lc ic (row :: rest) acc = processRows sc lc ic rest acc := by
            simp [processRows, hsym, hinst, hlot]
          have hrow : (if rowSym sc row == s && rowSym sc row != "" && rowInstOk ic row
              then rowLot lc row else none) = none := by rw [hlot]; simp
          rw [hskip, ih, specFirstValidLot_cons, hrow, optOr_none]
        | some lot =>
          by_cases hss : rowSym sc row = s
          · have hs2 : s ≠ "" := hss ▸ hsym
            have hrow : (if rowSym sc row == s && rowSym sc row != "" && rowInstOk ic row
                then rowLot lc row else none) = some lot := by
              simp [hss, hs2, hinst, hlot]
            by_cases hacc : (acc.lookup (rowSym sc row)).isSome
            · have hskip : processRows sc lc ic (row :: rest) acc =
                  processRows sc lc ic rest acc := by
                simp [processRows, hsym, hinst, hlot, hacc]
              obtain ⟨v, hv⟩ := Option.isSome_iff_exists.mp hacc
              rw [hss] at hv
              rw [hskip, ih, specFirstValidLot_cons, hrow, hv, optOr_some, optOr_some]
            · have hskip : processRows sc lc ic (row :: rest) acc =
                  processRows sc lc ic rest (acc ++ [(rowSym sc row, lot)]) := by
                simp [processRows, hsym, hinst, hlot, hacc]
              have haccn : acc.lookup s = none := by
                rw [← hss]
                exact Option.not_isSome_iff_eq_none.mp hacc
              have hsingle : ([(rowSym sc row, lot)] : List (String × Int)).lookup s =
                  some lot := by simp [List.lookup, hss]
              rw [hskip, ih, lookup_append_opt, hsingle, specFirstValidLot_cons, hrow, haccn,
                optOr_none, optOr_none]
          · have hrow : (if rowSym sc row == s && rowSym sc row != "" && rowInstOk ic row
                then rowLot lc row else none) = none := by simp [hss]
            by_cases hacc : (acc.lookup (rowSym sc row)).isSome
            · have hskip : processRows sc lc ic (row :: rest) acc =
                  processRows sc lc ic rest acc := by
                simp [processRows, hsym, hinst, hlot, hacc]
              rw [hskip, ih, specFirstValidLot_cons, hrow, optOr_none]
            · have hskip : processRows sc lc ic (row :: rest) acc =
                  processRows sc lc ic rest (acc ++ [(rowSym sc row, lot)]) := by
                simp [processRows, hsym, hinst, hlot, hacc]
              have hne : (s == rowSym sc row) = false :=
                beq_eq_false_iff_ne.mpr (fun h => hss h.symm)
              have hsingle : ([(rowSym sc row, lot)] : List (String × Int)).lookup s =
                  none := by simp [List.lookup, hne]
              rw [hskip, ih, lookup_append_opt, hsingle, specFirstValidLot_cons, hrow, optOr_none]
              cases acc.lookup s <;> rfl
      · have hskip : processRows sc lc ic (row :: rest) acc = processRows sc lc ic rest acc := by
          simp [processRows, hsym, hinst]
        have hrow : (if rowSym sc row == s && rowSym sc row != "" && rowInstOk ic row
            then rowLot lc row else none) = none := by simp [hinst]
        rw [hskip, ih, specFirstValidLot_cons, hrow, optOr_none]

/-- Every entry the row loop adds has a non-empty key and originates
from a source row: the key is that row's normalized symbol and the value
that row's truncated lot field. -/
theorem processRows_mem (sc lc : String) (ic : Option String)
    (rows : List (List (String × String))) (acc : List (String × Int)) :
    ∀ p ∈ processRows sc lc ic rows acc,
      p ∈ acc ∨ (p.1 ≠ "" ∧ ∃ row ∈ rows, p.1 = rowSym sc row ∧ rowLot lc row = some p.2) := by
  induction rows generalizing acc with
  | nil => simp [processRows]
  | cons row rest ih =>
    intro p hp
    by_cases hsym : rowSym sc row = ""
    · rcases ih acc p (by simpa [processRows, hsym] using hp) with h | ⟨h1, r, hr, h2⟩
      · exact Or.inl h
      · exact Or.inr ⟨h1, r, List.mem_cons_of_mem _ hr, h2⟩
    · by_cases hinst : rowInstOk ic row
      · cases hlot : rowLot lc row with
        | none =>
          rcases ih acc p (by simpa [processRows, hsym, hinst, hlot] using hp) with
            h | ⟨h1, r, hr, h2⟩
          · exact Or.inl h
          · exact Or.inr ⟨h1, r, List.mem_cons_of_mem _ hr, h2⟩
        | some lot =>
          by_cases hacc : (acc.lookup (rowSym sc row)).isSome
          · rcases ih acc p (by simpa [processRows, hsym, hinst, hlot, hacc] using hp) with
              h | ⟨h1, r, hr, h2⟩
            · exact Or.inl h
            · exact Or.inr ⟨h1, r, List.mem_cons_of_mem _ hr, h2⟩
          · rcases ih (acc ++ [(rowSym sc row, lot)]) p
              (by simpa [processRows, hsym, hinst, hlot, hacc] using hp) with h | ⟨h1, r, hr, h2⟩
            · rcases List.mem_append.mp h with h | h
              · exact Or.inl h
              · rcases List.mem_singleton.mp h with rfl
                exact Or.inr ⟨hsym, row, List.mem_cons_self _ _, rfl, hlot⟩
            · exact Or.inr ⟨h1, r, List.mem_cons_of_mem _ hr, h2⟩
      · rcases ih acc p (by simpa [processRows, hsym, hinst] using hp) with h | ⟨h1, r, hr, h2⟩
        · exact Or.inl h
        · exact Or.inr ⟨h1, r, List.mem_cons_of_mem _ hr, h2⟩

/-- C1: for every contract CSV whose headers resolve a symbol column and
a lot column, the parser maps each symbol to the lot of its first valid
occurrence in file order (rows with an empty normalized symbol, rows
failing the instrument filter, and rows with an empty or non-numeric lot
field are skipped without aborting the file; later rows of an
already-mapped symbol are ignored), and the table never contains an
empty key.  The source additionally raises when the processed table is
empty, which the first conjunct records. -/
theorem c1_parser_first_occurrence (file : ContractFile) (sc lc : String)
    (hrows : file.rows ≠ [])
    (hsc : resolveSymbolCol (csvHeaders file.fieldnames) = some sc)
    (hlc : resolveLotCol (csvHeaders file.fieldnames) = some lc) :
    (extract_lot_size_map_from_contract_csv file =
      if (processRows sc lc (resolveInstrCol (csvHeaders file.fieldnames)) file.rows []).isEmpty
      then Except.error "Parsed NSE contract file but no lot sizes found"
      else Except.ok (processRows sc lc (resolveInstrCol (csvHeaders file.fieldnames)) file.rows []))
    ∧ (∀ s, (processRows sc lc (resolveInstrCol (csvHeaders file.fieldnames)) file.rows []).lookup s
        = specFirstValidLot sc lc (resolveInstrCol (csvHeaders file.fieldnames)) file.rows s)
    ∧ (∀ p ∈ processRows sc lc (resolveInstrCol (csvHeaders file.fieldnames)) file.rows [],
        p.1 ≠ "") := by
  obtain ⟨fns, rows⟩ := file
  cases rows with
  | nil => exact absurd rfl hrows
  | cons r rs =>
    refine ⟨?_, ?_, ?_⟩
    · simp only [extract_lot_size_map_from_contract_csv, hsc, hlc]
    · intro s
      simpa using processRows_lookup sc lc (resolveInstrCol (csvHeaders fns)) (r :: rs) [] s
    · intro p hp
      rcases processRows_mem sc lc (resolveInstrCol (csvHeaders fns)) (r :: rs) [] p hp with
        h | ⟨h1, _⟩
      · simp at h
      · exact h1

/-- Witness for C1 at the duplicate-symbol example: the first occurrence
wins, so TCS maps to 175, and the specification-side first-valid-lot
agrees. -/
theorem c1_parser_first_occurrence_witness :
    extract_lot_size_map_from_contract_csv dupSymbolFile = Except.ok [("TCS", 175)] ∧
    specFirstValidLot "SYMBOL" "LOT_SIZE" none dupSymbolFile.rows "TCS" = some 175 := by
  have h := c1_parser_first_occurrence dupSymbolFile "SYMBOL" "LOT_SIZE" (by decide) rfl rfl
  exact ⟨h.1.trans (by rfl), ((h.2.1 "TCS").symm).trans (by rfl)⟩

/-- C2: when neither the exact candidate lists nor the fuzzy fallback
resolve both the symbol and the lot column, parsing (of a file with at
least one data row, the zero-row case failing earlier with the no-rows
error) fails with the column-detection error naming the headers and
never returns a table. -/
theorem c2_column_detection_error (file : ContractFile)
    (hrows : file.rows ≠ [])
    (h : resolveSymbolCol (csvHeaders file.fieldnames) = none ∨
         resolveLotCol (csvHeaders file.fieldnames) = none) :
    extract_lot_size_map_from_contract_csv file =
      Except.error (colDetectError (csvHeaders file.fieldnames)) ∧
    ∀ m, extract_lot_size_map_from_contract_csv file ≠ Except.ok m := by
  obtain ⟨fns, rows⟩ := file
  cases rows with
  | nil => exact absurd rfl hrows
  | cons r rs =>
    have he : extract_lot_size_map_from_contract_csv ⟨fns, r :: rs⟩ =
        Except.error (colDetectError (csvHeaders fns)) := by
      rcases h with h | h
      · cases hl : resolveLotCol (csvHeaders fns) <;>
          simp [extract_lot_size_map_from_contract_csv, h, hl]
      · cases hs : resolveSymbolCol (csvHeaders fns) <;>
          simp [extract_lot_size_map_from_contract_csv, h, hs]
    exact ⟨he, fun m hm => by rw [he] at hm; exact Except.noConfusion hm⟩

/-- Witness for C2: a file whose headers are FOO and BAR fails with the
column-detection error naming them. -/
theorem c2_column_detection_error_witness :
    extract_lot_size_map_from_contract_csv badHeaderFile =
      Except.error
        "Could not detect symbol/lot columns in NSE contract file. Headers: [\x27FOO\x27, \x27BAR\x27]" := by
  have h := c2_column_detection_error badHeaderFile (by decide) (Or.inl rfl)
  exact h.1.trans (by rfl)

/-- C5 counterexample: the claim that every stored value is strictly
positive fails on the code: a lot field of "0" is parsed and stored as
0, which is not positive. -/
theorem c5_counterexample :
    extract_lot_size_map_from_contract_csv zeroLotFile = Except.ok [("X", 0)] ∧
    ¬ ∀ p ∈ [(("X" : String), (0 : Int))], 0 < p.2 := by
  refine ⟨rfl, fun h => ?_⟩
  simpa using h ("X", 0) (by simp)

/-- C5 amended: every key of a parser-produced table is non-empty and is
the trimmed upper-cased symbol of some source row, and every value is
the truncated numeric lot field of that row (an integer, not necessarily
positive). -/
theorem c5_amended_table_values (file : ContractFile) (m : List (String × Int))
    (h : extract_lot_size_map_from_contract_csv file = Except.ok m) :
    ∀ p ∈ m, p.1 ≠ "" ∧
      ∃ sc lc, resolveSymbolCol (csvHeaders file.fieldnames) = some sc ∧
        resolveLotCol (csvHeaders file.fieldnames) = some lc ∧
        ∃ row ∈ file.rows, p.1 = rowSym sc row ∧ rowLot lc row = some p.2 := by
  obtain ⟨fns, rows⟩ := file
  cases rows with
  | nil => simp [extract_lot_size_map_from_contract_csv] at h
  | cons r rs =>
    cases hs : resolveSymbolCol (csvHeaders fns) with
    | none =>
      cases hl : resolveLotCol (csvHeaders fns) <;>
        simp [extract_lot_size_map_from_contract_csv, hs, hl] at h
    | some sc =>
      cases hl : resolveLotCol (csvHeaders fns) with
      | none => simp [extract_lot_size_map_from_contract_csv, hs, hl] at h
      | some lc =>
        simp only [extract_lot_size_map_from_contract_csv, hs, hl] at h
        by_cases hemp : (processRows sc lc (resolveInstrCol (csvHeaders fns)) (r :: rs) []).isEmpty
        · simp [hemp] at h
        · simp only [hemp, Bool.false_eq_true, if_false, Except.ok.injEq] at h
          intro p hp
          rw [← h] at hp
          rcases processRows_mem sc lc (resolveInstrCol (csvHeaders fns)) (r :: rs) [] p hp with
            hmem | ⟨h1, row, hrow, h2, h3⟩
          · simp at hmem
          · exact ⟨h1, sc, lc, rfl, rfl, row, hrow, h2, h3⟩

/-- Witness for the amended C5 at the zero-lot file. -/
theorem c5_amended_table_values_witness :
    extract_lot_size_map_from_contract_csv zeroLotFile = Except.ok [("X", 0)] ∧
    ("X" : String) ≠ "" := by
  refine ⟨rfl, ?_⟩
  exact (c5_amended_table_values zeroLotFile [("X", 0)] rfl ("X", 0) (by simp)).1

/-- C10: an empty or whitespace-only symbol makes `get_nse_lot_size`
return None immediately: no discovery, fetch or parse runs and the cache
is unchanged, whatever its state. -/
theorem c10_empty_symbol_short_circuit (symbol : String) (now : Int) (st : LotCache)
    (d : Except String String) (f : String → Except String ContractFile)
    (h : normalize_symbol symbol = "") :
    get_nse_lot_size symbol now st d f = (Except.ok none, st, ⟨0, 0, 0⟩) := by
  simp [get_nse_lot_size, h]

/-- Witness for C10: a whitespace symbol with an empty stale cache and a
failing discovery oracle still returns None with the cache untouched and
a zero trace. -/
theorem c10_empty_symbol_short_circuit_witness :
    get_nse_lot_size "   " 5 ⟨none, 0, none⟩ (Except.error "x") (fun _ => Except.error "x") =
      (Except.ok none, ⟨none, 0, none⟩, ⟨0, 0, 0⟩) :=
  c10_empty_symbol_short_circuit "   " 5 ⟨none, 0, none⟩ (Except.error "x")
    (fun _ => Except.error "x") rfl

/-- C3: a lookup while the cache holds a table loaded less than six
hours ago, without forced refresh, returns the cached table with no
discovery, fetch or parse; with forced refresh the freshness check is
bypassed and the refresh pipeline runs (discovery is always attempted)
regardless of the age of the cache. -/
theorem c3_cache_freshness (now : Int) (st : LotCache) (d : Except String String)
    (f : String → Except String ContractFile) :
    (∀ m, st.data = some m → now - st.loaded_at < ttlSeconds →
        load_nse_lot_sizes false now st d f = (Except.ok m, st, ⟨0, 0, 0⟩))
    ∧ load_nse_lot_sizes true now st d f = refreshNse now st d f
    ∧ (load_nse_lot_sizes true now st d f).2.2.discoveries = 1 := by
  have hforce : load_nse_lot_sizes true now st d f = refreshNse now st d f := by
    cases hm : st.data <;> simp [load_nse_lot_sizes, hm]
  refine ⟨?_, hforce, ?_⟩
  · intro m hm hlt
    simp [load_nse_lot_sizes, hm, hlt]
  · rw [hforce]
    cases d with
    | error e => rfl
    | ok url =>
      cases hf : f url with
      | error e => simp [refreshNse, hf]
      | ok file =>
        cases hx : extract_lot_size_map_from_contract_csv file <;> simp [refreshNse, hf, hx]

/-- Witness for C3: a cache loaded at time 0 queried at time 100 is
served as is, with a zero stage trace, even though both oracles would
fail. -/
theorem c3_cache_freshness_witness :
    load_nse_lot_sizes false 100 ⟨some [("TCS", 175)], 0, some "u"⟩ (Except.error "down")
        (fun _ => Except.error "down") =
      (Except.ok [("TCS", 175)], ⟨some [("TCS", 175)], 0, some "u"⟩, ⟨0, 0, 0⟩) :=
  (c3_cache_freshness 100 ⟨some [("TCS", 175)], 0, some "u"⟩ (Except.error "down")
    (fun _ => Except.error "down")).1 [("TCS", 175)] rfl (by decide)

/-- C4: when the refresh path is taken, any stage failure propagates and
leaves all three cache fields exactly as they were, and a success
replaces all three fields together (table, timestamp, discovered URL). -/
theorem c4_refresh_all_or_nothing (force : Bool) (now : Int) (st : LotCache)
    (d : Except String String) (f : String → Except String ContractFile)
    (hpath : ¬(force = false ∧ cacheFresh now st = true)) :
    (∀ e, (load_nse_lot_sizes force now st d f).1 = Except.error e →
        (load_nse_lot_sizes force now st d f).2.1 = st)
    ∧ (∀ m, (load_nse_lot_sizes force now st d f).1 = Except.ok m →
        ∃ url, d = Except.ok url ∧
          (load_nse_lot_sizes force now st d f).2.1 = ⟨some m, now, some url⟩) := by
  have hload : load_nse_lot_sizes force now st d f = refreshNse now st d f := by
    cases hm : st.data with
    | none => simp [load_nse_lot_sizes, hm]
    | some m =>
      by_cases hfr : (force == false && decide (now - st.loaded_at < ttlSeconds)) = true
      · exfalso
        apply hpath
        rcases Bool.and_eq_true_iff.mp hfr with ⟨h1, h2⟩
        exact ⟨beq_iff_eq.mp h1, by simp [cacheFresh, hm, of_decide_eq_true h2]⟩
      · simp only [load_nse_lot_sizes, hm]
        rw [if_neg hfr]
  constructor
  · intro e he
    rw [hload] at he ⊢
    cases d with
    | error e2 => rfl
    | ok url =>
      cases hf : f url with
      | error e2 => simp [refreshNse, hf]
      | ok file =>
        cases hx : extract_lot_size_map_from_contract_csv file with
        | error e2 => simp [refreshNse, hf, hx]
        | ok m => simp [refreshNse, hf, hx] at he
  · intro m hm2
    rw [hload] at hm2 ⊢
    cases d with
    | error e2 => simp [refreshNse] at hm2
    | ok url =>
      cases hf : f url with
      | error e2 => simp [refreshNse, hf] at hm2
      | ok file =>
        cases hx : extract_lot_size_map_from_contract_csv file with
        | error e2 => simp [refreshNse, hf, hx] at hm2
        | ok m2 =>
          refine ⟨url, rfl, ?_⟩
          simp only [refreshNse, hf, hx] at hm2 ⊢
          simp only [Except.ok.injEq] at hm2
          rw [← hm2]

/-- Witness for C4: a forced refresh whose fetch fails leaves the
previously fresh cache entry unchanged. -/
theorem c4_refresh_all_or_nothing_witness :
    (load_nse_lot_sizes true 0 ⟨some [("TCS", 175)], 0, some "old"⟩ (Except.ok "u")
        (fun _ => Except.error "boom")).2.1 = ⟨some [("TCS", 175)], 0, some "old"⟩ :=
  (c4_refresh_all_or_nothing true 0 ⟨some [("TCS", 175)], 0, some "old"⟩ (Except.ok "u")
    (fun _ => Except.error "boom") (by decide)).1 "boom" rfl

/-- C6 counterexample: the code takes no lock around the cache, so two
lookups arriving just after expiry, both of whose freshness checks run
before either refresh completes, perform two fetches against the
publisher, refuting that exactly one refresh is executed and that
refreshes are serialized. -/
theorem c6_counterexample :
    (concRun 0 (Except.ok "u") (fun _ => Except.ok dupFetchFile) [0, 1, 0, 1]
        ⟨⟨none, 0, none⟩, [TPhase.start, TPhase.start], 0⟩).fetches = 2 ∧ (2 : Nat) ≠ 1 :=
  ⟨by decide, by decide⟩

theorem getElem?_append_len {α : Type} (l : List α) (b : α) (rest : List α) :
    (l ++ b :: rest)[l.length]? = some b := by
  induction l with
  | nil => simp
  | cons x xs ih =>
    simp only [List.cons_append, List.length_cons, List.getElem?_cons_succ]
    exact ih

theorem set_append_len {α : Type} (l : List α) (b c : α) (rest : List α) :
    (l ++ b :: rest).set l.length c = l ++ c :: rest := by
  induction l with
  | nil => rfl
  | cons x xs ih =>
    simp only [List.cons_append, List.length_cons, List.set]
    rw [show xs.append (b :: rest) = xs ++ b :: rest from rfl, ih]

/-- On the concrete oracles of the concurrency runs the refresh pipeline
succeeds identically from every starting cache: one discovery, one
fetch, one parse, and the written entry. -/
theorem refreshNse_concrete (cache : LotCache) :
    refreshNse 0 cache (Except.ok "u") (fun _ => Except.ok dupFetchFile) =
      (Except.ok [("TCS", 175)], ⟨some [("TCS", 175)], 0, some "u"⟩, ⟨1, 1, 1⟩) := rfl

/-- Guard phase: while the cache stays stale, each of the next `m`
lookup threads that evaluates the freshness check decides to refresh;
the cache and the fetch count are untouched. -/
theorem concRun_guards (m : Nat) : ∀ (j : Nat) (cache : LotCache) (c : Nat),
    cacheFresh 0 cache = false →
    concRun 0 (Except.ok "u") (fun _ => Except.ok dupFetchFile) (List.range' j m)
      ⟨cache, List.replicate j TPhase.willRefresh ++ List.replicate m TPhase.start, c⟩ =
    ⟨cache, List.replicate (j + m) TPhase.willRefresh, c⟩ := by
  induction m with
  | zero => intro j cache c h; simp [concRun]
  | succ m ih =>
    intro j cache c h
    rw [List.range'_succ]
    have hget : (List.replicate j TPhase.willRefresh ++
        List.replicate (m + 1) TPhase.start)[j]? = some TPhase.start := by
      have := getElem?_append_len (List.replicate j TPhase.willRefresh) TPhase.start
        (List.replicate m TPhase.start)
      simpa [List.replicate_succ] using this
    have hset : (List.replicate j TPhase.willRefresh ++
          List.replicate (m + 1) TPhase.start).set j TPhase.willRefresh =
        List.replicate (j + 1) TPhase.willRefresh ++ List.replicate m TPhase.start := by
      have h0 := set_append_len (List.replicate j TPhase.willRefresh) TPhase.start
        TPhase.willRefresh (List.replicate m TPhase.start)
      rw [List.length_replicate] at h0
      rw [List.replicate_succ TPhase.start m, h0, List.replicate_succ' j, List.append_assoc]
      rfl
    have hstep : concStep 0 (Except.ok "u") (fun _ => Except.ok dupFetchFile)
        ⟨cache, List.replicate j TPhase.willRefresh ++ List.replicate (m + 1) TPhase.start, c⟩ j =
        ⟨cache, List.replicate (j + 1) TPhase.willRefresh ++ List.replicate m TPhase.start, c⟩ := by
      simp [concStep, hget, h, hset]
    show concRun 0 (Except.ok "u") (fun _ => Except.ok dupFetchFile)
        (List.range' (j + 1) m) (concStep 0 (Except.ok "u")
          (fun _ => Except.ok dupFetchFile) _ j) = _
    rw [hstep, ih (j + 1) cache c h]
    have : j + 1 + m = j + (m + 1) := by omega
    rw [this]

/-- Refresh phase: each of the next `m` lookup threads that already
decided to refresh runs the full pipeline unconditionally, adding one
fetch each, whatever the cache now holds. -/
theorem concRun_bodies (m : Nat) : ∀ (j : Nat) (cache : LotCache) (c : Nat),
    concRun 0 (Except.ok "u") (fun _ => Except.ok dupFetchFile) (List.range' j m)
      ⟨cache, List.replicate j TPhase.done ++ List.replicate m TPhase.willRefresh, c⟩ =
    ⟨if m = 0 then cache else ⟨some [("TCS", 175)], 0, some "u"⟩,
     List.replicate (j + m) TPhase.done, c + m⟩ := by
  induction m with
  | zero => intro j cache c; simp [concRun]
  | succ m ih =>
    intro j cache c
    rw [List.range'_succ]
    have hget : (List.replicate j TPhase.done ++
        List.replicate (m + 1) TPhase.willRefresh)[j]? = some TPhase.willRefresh := by
      have := getElem?_append_len (List.replicate j TPhase.done) TPhase.willRefresh
        (List.replicate m TPhase.willRefresh)
      simpa [List.replicate_succ] using this
    have hset : (List.replicate j TPhase.done ++
          List.replicate (m + 1) TPhase.willRefresh).set j TPhase.done =
        List.replicate (j + 1) TPhase.done ++ List.replicate m TPhase.willRefresh := by
      have h0 := set_append_len (List.replicate j TPhase.done) TPhase.willRefresh
        TPhase.done (List.replicate m TPhase.willRefresh)
      rw [List.length_replicate] at h0
      rw [List.replicate_succ TPhase.willRefresh m, h0, List.replicate_succ' j, List.append_assoc]
      rfl
    have hstep : concStep 0 (Except.ok "u") (fun _ => Except.ok dupFetchFile)
        ⟨cache, List.replicate j TPhase.done ++ List.replicate (m + 1) TPhase.willRefresh, c⟩ j =
        ⟨⟨some [("TCS", 175)], 0, some "u"⟩,
         List.replicate (j + 1) TPhase.done ++ List.replicate m TPhase.willRefresh, c + 1⟩ := by
      simp [concStep, hget, hset, refreshNse_concrete]
    show concRun 0 (Except.ok "u") (fun _ => Except.ok dupFetchFile)
        (List.range' (j + 1) m) (concStep 0 (Except.ok "u")
          (fun _ => Except.ok dupFetchFile) _ j) = _
    rw [hstep, ih (j + 1) ⟨some [("TCS", 175)], 0, some "u"⟩ (c + 1)]
    have h1 : j + 1 + m = j + (m + 1) := by omega
    have h2 : c + 1 + m = c + (m + 1) := by omega
    rw [h1, h2]
    cases m <;> rfl

/-- C6 amended: refreshes are not serialized and concurrent duplicate
fetches are not prevented.  For every thread count N, under the
interleaving that runs all N freshness checks against the stale cache
before any refresh (schedule: the N guard phases, then the N refresh
phases), every lookup runs its own full discovery-fetch-parse pipeline,
so N upstream fetches are performed; under the two-thread interleaving
in which the first lookup completes its refresh before the second
checks freshness, the second observes a fresh cache and only one fetch
is performed. -/
theorem c6_unserialized_refresh :
    (∀ N : Nat, (concRun 0 (Except.ok "u") (fun _ => Except.ok dupFetchFile)
        (List.range N ++ List.range N)
        ⟨⟨none, 0, none⟩, List.replicate N TPhase.start, 0⟩).fetches = N)
    ∧ (concRun 0 (Except.ok "u") (fun _ => Except.ok dupFetchFile) [0, 0, 1, 1]
        ⟨⟨none, 0, none⟩, [TPhase.start, TPhase.start], 0⟩).fetches = 1 := by
  constructor
  · intro N
    have hsplit : concRun 0 (Except.ok "u") (fun _ => Except.ok dupFetchFile)
        (List.range N ++ List.range N)
        ⟨⟨none, 0, none⟩, List.replicate N TPhase.start, 0⟩ =
        concRun 0 (Except.ok "u") (fun _ => Except.ok dupFetchFile) (List.range N)
          (concRun 0 (Except.ok "u") (fun _ => Except.ok dupFetchFile) (List.range N)
            ⟨⟨none, 0, none⟩, List.replicate N TPhase.start, 0⟩) := by
      simp [concRun, List.foldl_append]
    have hguards := concRun_guards N 0 ⟨none, 0, none⟩ 0 rfl
    have hbodies := concRun_bodies N 0 ⟨none, 0, none⟩ 0
    rw [hsplit, List.range_eq_range']
    simp only [List.replicate, List.nil_append, Nat.zero_add] at hguards hbodies
    rw [hguards, hbodies]
  · decide

/-- Witness instantiating the universal part of the amended C6 at two
threads: the guards-then-refreshes schedule performs two fetches. -/
theorem c6_unserialized_refresh_witness :
    (concRun 0 (Except.ok "u") (fun _ => Except.ok dupFetchFile)
        (List.range 2 ++ List.range 2)
        ⟨⟨none, 0, none⟩, List.replicate 2 TPhase.start, 0⟩).fetches = 2 :=
  c6_unserialized_refresh.1 2

theorem listLtChars_irrefl (l : List Char) : listLtChars l l = false := by
  induction l with
  | nil => rfl
  | cons c cs ih => simp [listLtChars, ih]

theorem listLtChars_trans {a b c : List Char} (h1 : listLtChars a b = true)
    (h2 : listLtChars b c = true) : listLtChars a c = true := by
  induction a generalizing b c with
  | nil =>
    cases c with
    | nil =>
      cases b with
      | nil => simp [listLtChars] at h1
      | cons y ys => simp [listLtChars] at h2
    | cons z zs => simp [listLtChars]
  | cons x xs ih =>
    cases b with
    | nil => simp [listLtChars] at h1
    | cons y ys =>
      cases c with
      | nil => simp [listLtChars] at h2
      | cons z zs =>
        simp only [listLtChars] at h1 h2 ⊢
        split_ifs at h1 h2 ⊢
        all_goals try rfl
        all_goals try omega
        all_goals exact ih h1 h2

/-- Co-transitivity of the lexicographic order: a strict comparison
passes through any middle list. -/
theorem listLtChars_cotrans {a c : List Char} (b : List Char)
    (h : listLtChars a c = true) :
    listLtChars a b = true ∨ listLtChars b c = true := by
  induction a generalizing b c with
  | nil =>
    cases b with
    | nil =>
      cases c with
      | nil => simp [listLtChars] at h
      | cons z zs => right; simp [listLtChars]
    | cons y ys => left; simp [listLtChars]
  | cons x xs ih =>
    cases c with
    | nil => simp [listLtChars] at h
    | cons z zs =>
      cases b with
      | nil => right; simp [listLtChars]
      | cons y ys =>
        simp only [listLtChars] at h ⊢
        split_ifs at h ⊢
        all_goals try (left; rfl)
        all_goals try (right; rfl)
        all_goals try omega
        all_goals exact ih ys h

theorem pyStrLt_irrefl (s : String) : pyStrLt s s = false := listLtChars_irrefl s.data

theorem pyStrLt_trans {a b c : String} (h1 : pyStrLt a b = true) (h2 : pyStrLt b c = true) :
    pyStrLt a c = true := listLtChars_trans h1 h2

theorem pyStrLt_cotrans {a c : String} (b : String) (h : pyStrLt a c = true) :
    pyStrLt a b = true ∨ pyStrLt b c = true := listLtChars_cotrans b.data h

/-- The fold picking `sorted(l)[-1]` returns an element of the list. -/
theorem listMaxStr_mem (x : String) (l : List String) : listMaxStr x l ∈ x :: l := by
  induction l generalizing x with
  | nil => simp [listMaxStr]
  | cons b t ih =>
    have hM := ih (if pyStrLt x b then b else x)
    have heq : listMaxStr x (b :: t) = listMaxStr (if pyStrLt x b then b else x) t := rfl
    rw [heq]
    rcases List.mem_cons.mp hM with h | h
    · rw [h]
      by_cases hc : pyStrLt x b = true <;> simp [hc]
    · exact List.mem_cons_of_mem _ (List.mem_cons_of_mem _ h)

/-- No element of the list is lexicographically greater than the fold
result: the selected filename is the greatest match. -/
theorem listMaxStr_not_lt (x : String) (l : List String) :
    ∀ y ∈ x :: l, pyStrLt (listMaxStr x l) y = false := by
  induction l generalizing x with
  | nil =>
    intro y hy
    rcases List.mem_cons.mp hy with rfl | h
    · simpa [listMaxStr] using pyStrLt_irrefl y
    · simp at h
  | cons b t ih =>
    intro y hy
    have heq : listMaxStr x (b :: t) = listMaxStr (if pyStrLt x b then b else x) t := rfl
    rw [heq]
    have hseed : ∀ z, pyStrLt (listMaxStr z t) z = false :=
      fun z => ih z z (List.mem_cons_self z t)
    rcases List.mem_cons.mp hy with rfl | hy2
    · by_cases hc : pyStrLt y b = true
      · rw [if_pos hc]
        cases hMy : pyStrLt (listMaxStr b t) y with
        | false => rfl
        | true =>
          rcases pyStrLt_cotrans b hMy with hMb | hby
          · rw [hseed b] at hMb
            exact Bool.noConfusion hMb
          · have := pyStrLt_trans hc hby
            rw [pyStrLt_irrefl] at this
            exact Bool.noConfusion this
      · rw [if_neg hc]
        exact hseed y
    · rcases List.mem_cons.mp hy2 with rfl | hy3
      · by_cases hc : pyStrLt x y = true
        · rw [if_pos hc]
          exact hseed y
        · rw [if_neg hc]
          cases hMy : pyStrLt (listMaxStr x t) y with
          | false => rfl
          | true =>
            rcases pyStrLt_cotrans x hMy with hMx | hxy
            · rw [hseed x] at hMx
              exact Bool.noConfusion hMx
            · exact absurd hxy hc
      · by_cases hc : pyStrLt x b = true
        · rw [if_pos hc]
          exact ih b y (List.mem_cons_of_mem _ hy3)
        · rw [if_neg hc]
          exact ih x y (List.mem_cons_of_mem _ hy3)

/-- C7: with no override configured, discovery returns the fixed archive
path joined with a listing-page match no other match exceeds
lexicographically; with an override configured, the (stripped) override
is returned as is. -/
theorem c7_discovery_selects_latest (envUrl html : String) :
    (pyStrip envUrl ≠ "" → get_latest_nse_contract_url envUrl html = Except.ok (pyStrip envUrl))
    ∧ (pyStrip envUrl = "" → ∀ m ms, findall_contract html = m :: ms →
        get_latest_nse_contract_url envUrl html =
          Except.ok (nseArchiveBase ++ listMaxStr m ms)
        ∧ listMaxStr m ms ∈ m :: ms
        ∧ ∀ x ∈ m :: ms, pyStrLt (listMaxStr m ms) x = false) := by
  constructor
  · intro h
    simp [get_latest_nse_contract_url, h]
  · intro h m ms hfind
    refine ⟨?_, listMaxStr_mem m ms, listMaxStr_not_lt m ms⟩
    simp [get_latest_nse_contract_url, h, hfind]

/-- Witness for C7 at the three-filename example of the spec: the
lexicographically greatest dated name is selected and joined with the
archive host path. -/
theorem c7_discovery_selects_latest_witness :
    get_latest_nse_contract_url "" listingPageSample =
      Except.ok "https://nsearchives.nseindia.com/content/fo/NSE_FO_contract_15022026.csv.gz" := by
  have h := (c7_discovery_selects_latest "" listingPageSample).2 rfl
    "NSE_FO_contract_01012026.csv.gz"
    ["NSE_FO_contract_15022026.csv.gz", "NSE_FO_contract_05012026.csv.gz"] rfl
  exact h.1.trans (by rfl)

/-- C9: for a quote whose broker call returned rows, the response status
is ok; when the exchange code upper-cases to NFO and the lot-size
subsystem raises, the response is still ok with a null lot size; for any
other exchange code the lot-size subsystem is not consulted at all and
the cache is untouched. -/
theorem c9_quote_lot_enrichment (exchange_code stock_code : String)
    (rows : List (List (String × String))) (now : Int) (st : LotCache)
    (d : Except String String) (f : String → Except String ContractFile)
    (hrows : rows ≠ []) :
    (∃ v, (quote_handler exchange_code stock_code rows now st d f).1 = QuoteResult.ok v)
    ∧ (∀ e, pyUpper exchange_code = "NFO" →
        (get_nse_lot_size stock_code now st d f).1 = Except.error e →
        quote_handler exchange_code stock_code rows now st d f =
          (QuoteResult.ok none, (get_nse_lot_size stock_code now st d f).2.1))
    ∧ (pyUpper exchange_code ≠ "NFO" →
        quote_handler exchange_code stock_code rows now st d f = (QuoteResult.ok none, st)) := by
  cases rows with
  | nil => exact absurd rfl hrows
  | cons r rs =>
    refine ⟨?_, ?_, ?_⟩
    · by_cases hex : (pyUpper exchange_code == "NFO") = true
      · rcases hget : get_nse_lot_size stock_code now st d f with ⟨res, st2, tr⟩
        cases res with
        | ok v => exact ⟨v, by simp [quote_handler, hex, hget]⟩
        | error e => exact ⟨none, by simp [quote_handler, hex, hget]⟩
      · exact ⟨none, by simp [quote_handler, hex]⟩
    · intro e hnfo herr
      have hex : (pyUpper exchange_code == "NFO") = true := by simp [hnfo]
      rcases hget : get_nse_lot_size stock_code now st d f with ⟨res, st2, tr⟩
      rw [hget] at herr
      simp only at herr
      subst herr
      simp [quote_handler, hex, hget]
    · intro hnfo
      have hex : (pyUpper exchange_code == "NFO") = false :=
        beq_eq_false_iff_ne.mpr hnfo
      simp [quote_handler, hex]

/-- Witness for C9: an NFO quote with one row, a stale empty cache and a
failing discovery still yields an ok response with a null lot size and
an unchanged cache. -/
theorem c9_quote_lot_enrichment_witness :
    quote_handler "NFO" "TCS" [[]] 0 ⟨none, 0, none⟩ (Except.error "net")
        (fun _ => Except.error "net") = (QuoteResult.ok none, ⟨none, 0, none⟩) := by
  have h := (c9_quote_lot_enrichment "NFO" "TCS" [[]] 0 ⟨none, 0, none⟩ (Except.error "net")
    (fun _ => Except.error "net") (by decide)).2.1 "net" rfl rfl
  exact h.trans (by rfl)

theorem sortStrikes_sorted_nodup (L : List ℚ) :
    (sortStrikes L).Sorted (· ≤ ·) ∧ (sortStrikes L).Nodup :=
  ⟨List.sorted_insertionSort _ _,
   ((List.perm_insertionSort _ _).symm).nodup (List.nodup_dedup L)⟩

/-- C8: the option-strikes handler attempts the right parameter first in
lowercase and then capitalized; the first variant with non-empty rows
yields a success response (a constructor carrying no attempted-rights
field) whose strikes are deduplicated and sorted ascending; only when
both variants yield empty rows does it return the error response with
the last collaborator payload and the attempted right values. -/
theorem c8_option_strikes_variants (f : String → BreezeResp) (right : String)
    (hv : pyLower (pyStrip right) = "call" ∨ pyLower (pyStrip right) = "put") :
    ((f (pyLower (pyStrip right))).success ≠ [] →
      ∀ L, parseStrikeList (strikeFilter (f (pyLower (pyStrip right))).success) = some L →
        option_strikes f right =
          some (StrikesResult.ok (pyLower (pyStrip right))
            (spotOf (f (pyLower (pyStrip right))).success)
            (sortStrikes L).length (sortStrikes L))
        ∧ (sortStrikes L).Sorted (· ≤ ·) ∧ (sortStrikes L).Nodup)
    ∧ ((f (pyLower (pyStrip right))).success = [] →
      (f (pyCapitalize (pyLower (pyStrip right)))).success ≠ [] →
      ∀ L, parseStrikeList
          (strikeFilter (f (pyCapitalize (pyLower (pyStrip right)))).success) = some L →
        option_strikes f right =
          some (StrikesResult.ok (pyCapitalize (pyLower (pyStrip right)))
            (spotOf (f (pyCapitalize (pyLower (pyStrip right)))).success)
            (sortStrikes L).length (sortStrikes L))
        ∧ (sortStrikes L).Sorted (· ≤ ·) ∧ (sortStrikes L).Nodup)
    ∧ ((f (pyLower (pyStrip right))).success = [] →
      (f (pyCapitalize (pyLower (pyStrip right)))).success = [] →
      option_strikes f right =
        some (StrikesResult.err (some (f (pyCapitalize (pyLower (pyStrip right)))))
          [pyLower (pyStrip right), pyCapitalize (pyLower (pyStrip right))])) := by
  set r := pyLower (pyStrip right) with hr
  have hvalid : (r != "call" && r != "put") = false := by
    rcases hv with h | h <;> simp [h]
  have hopen : option_strikes f right =
      tryRightValues f [r, pyCapitalize r] none [] := by
    simp [option_strikes, ← hr, hvalid]
  refine ⟨?_, ?_, ?_⟩
  · intro hne L hL
    cases hsucc : (f r).success with
    | nil => exact absurd hsucc hne
    | cons a as =>
      rw [hsucc] at hL
      refine ⟨?_, (sortStrikes_sorted_nodup L).1, (sortStrikes_sorted_nodup L).2⟩
      rw [hopen]
      simp [tryRightValues, hsucc, hL]
  · intro hemp hne L hL
    cases hsucc : (f (pyCapitalize r)).success with
    | nil => exact absurd hsucc hne
    | cons a as =>
      rw [hsucc] at hL
      refine ⟨?_, (sortStrikes_sorted_nodup L).1, (sortStrikes_sorted_nodup L).2⟩
      rw [hopen]
      simp [tryRightValues, hemp, hsucc, hL]
  · intro hemp1 hemp2
    rw [hopen]
    simp [tryRightValues, hemp1, hemp2]

/-- Witness for C8 at the spec example: the collaborator returns empty
rows for "call" but rows for "Call", so the handler succeeds with the
capitalized variant, strikes deduplicated and sorted ascending, and no
attempted-rights field. -/
theorem c8_option_strikes_variants_witness :
    option_strikes exBreeze "call" =
      some (StrikesResult.ok "Call" (some 99) 2 [50, 100.5]) := by
  have hparse : parseStrikeList ["100.5", "100.5", "50"] = some [201 / 2, 201 / 2, 50] := by
    simp [parseStrikeList, pyFloatRat, show parsePyFloat "100.5" = some ⟨false, 1005, 1, 0⟩ from rfl,
      show parsePyFloat "50" = some ⟨false, 50, 0, 0⟩ from rfl, PyFloatLit.toRat]
    norm_num
  have hsort : sortStrikes [201 / 2, 201 / 2, 50] = [50, 201 / 2] := by
    norm_num [sortStrikes, List.dedup, List.pwFilter, List.insertionSort, List.orderedInsert]
  have hspot :
      spotOf [⟨some "100.5", some "99"⟩, ⟨some "100.5", none⟩, ⟨some "50", some ""⟩] =
        some 99 := by
    norm_num [spotOf, List.findSome?, pyFloatRat,
      show parsePyFloat "99" = some ⟨false, 99, 0, 0⟩ from rfl, PyFloatLit.toRat,
      show (pyStrip "99" == "") = false from rfl, show (pyStrip "100.5" == "") = false from rfl,
      show (pyStrip "" == "") = true from rfl,
      show pyFloatRat "100.5" = some (PyFloatLit.toRat ⟨false, 1005, 1, 0⟩) from rfl]
  have h := (c8_option_strikes_variants exBreeze "call" (Or.inl rfl)).2.1 rfl (by decide)
    [201 / 2, 201 / 2, 50] hparse
  refine h.1.trans ?_
  have hcap : pyCapitalize (pyLower (pyStrip "call")) = "Call" := rfl
  have hrows : (exBreeze "Call").success =
      [⟨some "100.5", some "99"⟩, ⟨some "100.5", none⟩, ⟨some "50", some ""⟩] := rfl
  rw [hcap, hrows, hsort, hspot]
  norm_num
